import Mathlib

/-!
Shallow embedding of the RIFT-0 tokenization core (rift-poc repository).

The definitions below are translated from the C sources:
  * `src/rift-0/src/core/lexer/tokenizer_rules.c` (DFA, regex compiler, scanner),
  * `src/rift-0/src/core/lexer/tokenizer.c` (context initialisation, configuration),
  * `src/rift-0/include/rift-0/core/lexer/tokenizer_types.h` (data model),
  * `src/rift-0/src/core/rift-0.c` (stage-0 engine `tokenize_input`, `create_token`,
    and the dual-channel routing loop of `process_stage0`).

Modelling conventions:
  * C bytes are `Nat`; every place the C casts to `unsigned char` (array indexing,
    `(uint8_t)` argument passing) applies `% 256`, and `(uint16_t)` applies `% 65536`.
  * DFA state graphs are represented by the transition table `Nat → Nat → Option Nat`
    (state id and input byte to successor id) plus the list of ids whose `is_final`
    flag is set; state ids play the role of the C state pointers (ids are unique
    within one compiled pattern, exactly as allocated by `_compile_simple_pattern`).
  * Loops are written as fuel-indexed structural recursions; each is invoked with a
    fuel value that dominates the loop's variant (the scanner advances at least one
    byte per iteration, the pattern parser at least one pattern character), so the
    out-of-fuel branch is never taken on the canonical calls.
  * Allocation is assumed to succeed except for DFA state creation, which takes an
    explicit list `failIds` of state ids whose `calloc` fails; this is the failure
    path of `rift_dfa_create_state` used by the compiler.
-/

namespace Rift

/-- Reading `pattern[i]` as `unsigned char`; reading one past the end of the string
yields the NUL terminator, value 0, exactly as in C. -/
def getB (p : List Nat) (i : Nat) : Nat := (p.getD i 0) % 256

/-! ### Token records (tokenizer_types.h, tokenizer_rules.c)

`TokenTriplet` is a packed bitfield: `type : 8`, `mem_ptr : 16`, `value : 8`. -/

structure TokenTriplet where
  type : Nat
  mem_ptr : Nat
  value : Nat
deriving DecidableEq, Repr

/-- The constructor `rift_token_create(uint8_t type, uint16_t mem_ptr, uint8_t value)`:
the argument conversions truncate to the parameter widths. -/
def rift_token_create (t m v : Nat) : TokenTriplet :=
  { type := t % 256, mem_ptr := m % 65536, value := v % 256 }

/-- TokenType enumeration values from tokenizer_types.h. -/
def TOKEN_UNKNOWN : Nat := 0

def TOKEN_IDENTIFIER : Nat := 1

def TOKEN_KEYWORD : Nat := 2

def TOKEN_EOF : Nat := 13

def TOKEN_ERROR : Nat := 255

/-! ### DFA state graphs (tokenizer_rules.c)

A graph is its transition table; `rift_dfa_add_transition` writes
`from->transitions[(unsigned char)c] = to` unconditionally and returns `true`
(the C returns `false` only for null state pointers, which have no counterpart
here). Note there is no occupancy check: an existing edge is overwritten. -/

abbrev Delta := Nat → Nat → Option Nat

def rift_dfa_add_transition (d : Delta) (fromId toId : Nat) (c : Nat) : Bool × Delta :=
  (true, fun s b => if s = fromId ∧ b = c % 256 then some toId else d s b)

/-- One step of `rift_dfa_process_input`: `current = current->transitions[(unsigned char)c]`,
with a null `current` propagating (the C loop exits early on null, which yields
the same final value). -/
def dfaStep (d : Delta) (cur : Option Nat) (c : Nat) : Option Nat :=
  match cur with
  | none => none
  | some s => d s (c % 256)

/-- Struct `RegexComposition` (tokenizer_types.h): compiled pattern with its DFA.
`start_token_type` is the `token_type` field of the start state (id 0); it is the
only state whose token type is ever read (`rift_dfa_get_token_type(regex->start_state)`). -/
structure RegexComposition where
  delta : Delta
  finals : List Nat
  start_token_type : Nat
  flags : Nat
  is_compiled : Bool
  pattern : List Nat

/-- Function `rift_dfa_process_input(start, input, length)`: returns `NULL` (none) when
`length == 0`, otherwise walks the table from the start state (id 0). -/
def rift_dfa_process_input (r : RegexComposition) (input : List Nat) : Option Nat :=
  if input.length = 0 then none
  else input.foldl (dfaStep r.delta) (some 0)

/-- Function `rift_dfa_is_accepting_state`: null is not accepting, else the `is_final` flag. -/
def rift_dfa_is_accepting_state (r : RegexComposition) (s : Option Nat) : Bool :=
  match s with
  | none => false
  | some id => r.finals.contains id

/-- Function `rift_regex_match`: false for an uncompiled regex, otherwise run the DFA over
the byte range and test acceptance. -/
def rift_regex_match (r : RegexComposition) (input : List Nat) : Bool :=
  r.is_compiled && rift_dfa_is_accepting_state r (rift_dfa_process_input r input)

/-- The scanner's match test at `pos` with candidate length `l`:
`rift_regex_match(regex, input + pos, l)`. -/
def matchSeg (r : RegexComposition) (input : List Nat) (pos l : Nat) : Bool :=
  rift_regex_match r ((input.drop pos).take l)

/-! ### Pattern compiler (`_compile_simple_pattern`, tokenizer_rules.c) -/

/-- Character-class body parser, the `while (i < pattern_len && pattern[i] != ']')`
loop; `tmp` is `temp_set`. Returns the set and the index after the loop (at the
closing `]` or at `plen`). Fueled; fuel `plen` dominates because every iteration
advances `i` by at least one. The C range fill
`for (unsigned char ch = c1; ch <= c2; ch++)` is rendered as the interval
predicate; the two agree except that the C loop never terminates when `c2 = 255`. -/
def parseClassF (p : List Nat) (plen : Nat) : Nat → (Nat → Bool) → Nat → (Nat → Bool) × Nat
  | 0, tmp, i => (tmp, i)
  | fuel+1, tmp, i =>
    if i < plen ∧ getB p i ≠ 93 then
      let esc1 := decide (getB p i = 92 ∧ i + 1 < plen)
      let c1 := if esc1 then getB p (i+1) else getB p i
      let j := if esc1 then i + 2 else i + 1
      if j < plen - 1 ∧ getB p j = 45 ∧ getB p (j+1) ≠ 93 then
        let esc2 := decide (getB p (j+1) = 92 ∧ j + 2 < plen)
        let c2 := if esc2 then getB p (j+2) else getB p (j+1)
        let k := if esc2 then j + 2 else j + 1
        parseClassF p plen fuel (fun ch => tmp ch || (decide (c1 ≤ ch) && decide (ch ≤ c2))) (k+1)
      else
        parseClassF p plen fuel (fun ch => tmp ch || decide (ch = c1)) j
    else (tmp, i)

/-- Parse one pattern unit starting at `i` (the loop guarantees `i < plen`):
escaped literal, character class (with optional `^` negation), wildcard `.`
(all 256 bytes), or literal byte. Returns the character set and the index just
after the unit, before any quantifier. The C reads `pattern[i]` after skipping
`[` without a bounds check; that lands on the NUL terminator (or on a stripped
trailing `$`), which `getB` reproduces. -/
def parseUnit (p : List Nat) (plen i : Nat) : (Nat → Bool) × Nat :=
  if getB p i = 92 ∧ i + 1 < plen then
    (fun ch => decide (ch = getB p (i+1)), i + 2)
  else if getB p i = 91 then
    if getB p (i+1) = 94 then
      let r := parseClassF p plen plen (fun _ => false) (i+2)
      let j := if r.2 < plen ∧ getB p r.2 = 93 then r.2 + 1 else r.2
      (fun ch => !(r.1 ch), j)
    else
      let r := parseClassF p plen plen (fun _ => false) (i+1)
      let j := if r.2 < plen ∧ getB p r.2 = 93 then r.2 + 1 else r.2
      (fun ch => r.1 ch, j)
  else if getB p i = 46 then
    (fun _ => true, i + 1)
  else
    (fun ch => decide (ch = getB p i), i + 1)

/-- Quantifier lookahead after a unit: `*` (42), `+` (43) or `?` (63).
Returns the quantifier byte (0 when absent) and the next index. -/
def readQuant (p : List Nat) (plen i : Nat) : Nat × Nat :=
  if i < plen ∧ (getB p i = 42 ∨ getB p i = 43 ∨ getB p i = 63) then (getB p i, i + 1)
  else (0, i)

/-- Mutable state of the compile loop: the transition table built so far, the
`current` state id, the next fresh state id, and the skip list (ids of the
`from` fields, most recently pushed first). -/
structure BuildSt where
  delta : Delta
  current : Nat
  nextId : Nat
  skip : List Nat

/-- Main loop of `_compile_simple_pattern`. Per unit: parse the character set
and quantifier, allocate the next state (when its id is in `failIds`,
`rift_dfa_create_state` returns NULL and the C aborts with `false`, keeping the
partial graph), then write transitions `current → next` and `sk → next` for
every skip-list entry on every byte of the set, plus the self loop
`next → next` for `*`/`+`. All those writes store the same target `next`, so
they amount to one override of the table (each C write goes through
`rift_dfa_add_transition`, which overwrites unconditionally). For `*`/`?` the
current state is pushed onto the skip list; otherwise the skip list is cleared.
Skip-node allocation is assumed to succeed. -/
def compileLoopF (p : List Nat) (plen : Nat) (failIds : List Nat) :
    Nat → BuildSt → Nat → Bool × BuildSt
  | 0, st, _ => (true, st)
  | fuel+1, st, i =>
    if i < plen then
      let u := parseUnit p plen i
      let q := readQuant p plen u.2
      if st.nextId ∈ failIds then (false, st)
      else
        let nxt := st.nextId
        let sources := if q.1 = 42 ∨ q.1 = 43 then nxt :: st.current :: st.skip
                       else st.current :: st.skip
        let delta2 : Delta := fun s b => if u.1 b && sources.contains s then some nxt else st.delta s b
        let skip2 := if q.1 = 42 ∨ q.1 = 63 then st.current :: st.skip else []
        compileLoopF p plen failIds fuel ⟨delta2, nxt, nxt + 1, skip2⟩ q.2
    else (true, st)

/-- Function `_compile_simple_pattern`: skip a leading `^`, ignore a trailing `$`, run
the unit loop from state 0, and on success mark `current` and every skip-list
state final. On failure no accept state is marked (the C marks them only after
the loop completes). -/
def compileSimplePattern (failIds : List Nat) (p : List Nat) : Bool × Delta × List Nat :=
  let i0 := if getB p 0 = 94 then 1 else 0
  let plen := if 0 < p.length ∧ getB p (p.length - 1) = 36 then p.length - 1 else p.length
  let r := compileLoopF p plen failIds plen ⟨fun _ _ => none, 0, 1, []⟩ i0
  if r.1 then (true, r.2.delta, r.2.current :: r.2.skip) else (false, r.2.delta, [])

/-- Function `rift_regex_compile`: allocate the composition and its start state (id 0;
`none` models that allocation failing, upon which the C returns NULL), store
pattern and flags, run `_compile_simple_pattern`, and record its success in
`is_compiled`. A composition whose inner compilation failed is still returned
non-null, with `is_compiled = false`. The start state's token type is
initialised to `TOKEN_UNKNOWN` by `rift_dfa_create_state`. -/
def rift_regex_compile (failIds : List Nat) (pattern : List Nat) (flags : Nat) :
    Option RegexComposition :=
  if 0 ∈ failIds then none
  else
    let r := compileSimplePattern failIds pattern
    some { delta := r.2.1, finals := r.2.2, start_token_type := TOKEN_UNKNOWN,
           flags := flags, is_compiled := r.1, pattern := pattern }

/-! ### Tokenizer context and pattern registration (tokenizer.c, tokenizer_rules.c) -/

/-- Struct `TokenizerContext` (tokenizer_types.h), restricted to the fields the
properties below involve. `patterns` is `regex_patterns[0 .. pattern_count)`,
so `pattern_count` is its length. `_tokenizer_init_context` starts a context
with line 1, column 1, no error, and `strict_mode = false`. -/
structure TokenizerContext where
  patterns : List RegexComposition
  pattern_capacity : Nat
  token_capacity : Nat
  line_number : Nat
  column_number : Nat
  strict_mode : Bool
  has_error : Bool
  error_code : Nat

/-- TokenizerErrorCode values (tokenizer_types.h). -/
def RIFT_TOKENIZER_ERROR_INVALID_INPUT : Nat := 2

def RIFT_TOKENIZER_ERROR_REGEX_COMPILATION_FAILED : Nat := 5

/-- Function `rift_rules_register_pattern`: reject when the registry is at capacity;
compile; on a NULL compilation result set the error state and return `false`
(registry untouched); otherwise set the start state's token type
(`rift_dfa_set_token_type`) and append the composition. Note the appended
composition is not checked for `is_compiled`. -/
def rift_rules_register_pattern (failIds : List Nat) (ctx : TokenizerContext)
    (pattern : List Nat) (token_type : Nat) (flags : Nat) : Bool × TokenizerContext :=
  if ctx.patterns.length ≥ ctx.pattern_capacity then
    (false, { ctx with has_error := true, error_code := RIFT_TOKENIZER_ERROR_INVALID_INPUT })
  else
    match rift_regex_compile failIds pattern flags with
    | none =>
      (false, { ctx with has_error := true,
                         error_code := RIFT_TOKENIZER_ERROR_REGEX_COMPILATION_FAILED })
    | some regex =>
      (true, { ctx with patterns := ctx.patterns ++ [{ regex with start_token_type := token_type }] })

/-- Function `rift_rules_get_count`: the registered-pattern count. -/
def rift_rules_get_count (ctx : TokenizerContext) : Nat := ctx.patterns.length

/-! ### Scanner (`rift_rules_apply_all`, tokenizer_rules.c) -/

/-- Position-tracking update at the end of each scanner-loop iteration: the C
inspects only `input[pos - 1]`, the last byte consumed in the iteration
(`newPos` is the already-updated position). -/
def lineColUpd (input : List Nat) (newPos line col : Nat) : Nat × Nat :=
  if getB input (newPos - 1) = 10 then (line + 1, 1) else (line, col + 1)

/-- Inner candidate loop over one pattern: for `end` from `pos+1` to the input
length, keep the match iff it is strictly longer than the best so far. -/
def tryEnds (r : RegexComposition) (input : List Nat) (pos : Nat)
    (b : Nat × Option RegexComposition) (ends : List Nat) : Nat × Option RegexComposition :=
  ends.foldl
    (fun b e =>
      if matchSeg r input pos (e - pos) then
        if b.1 < e - pos then (e - pos, some r) else b
      else b)
    b

/-- The scanner's candidate selection at `pos`: all patterns in registration
order, each over all end positions `pos+1 .. length`. The update condition is
strict, so a tie on length keeps the earlier candidate. -/
def bestMatchLoop (ps : List RegexComposition) (input : List Nat) (pos : Nat) :
    Nat × Option RegexComposition :=
  ps.foldl (fun b r => tryEnds r input pos b (List.range' (pos+1) (input.length - pos))) (0, none)

/-- One scanner-loop iteration: `off` is the position at the start of the
iteration, `adv` the bytes consumed, and `emitted` the token appended to
`ctx->tokens`, if any (`none` when the buffer is at capacity). `off`/`adv` are
bookkeeping; the token buffer is the `filterMap` of `emitted`. -/
structure ScanIter where
  off : Nat
  adv : Nat
  emitted : Option TokenTriplet
deriving DecidableEq, Repr

/-- The `while (pos < length)` loop of `rift_rules_apply_all`. The
`found_match && total_tokens < capacity` branch emits the winning candidate's
token — type from the winning composition's start state, offset `(uint16_t)pos`,
value `(uint8_t)flags` — and advances by the match length. The `else` branch
(no candidate, or the buffer at capacity) emits a `TOKEN_UNKNOWN` token at
`(uint16_t)pos` when the buffer has room, and advances one byte. Line/column
are then updated from `input[pos - 1]`. Fuel `input.length` dominates because
every iteration advances at least one byte. -/
def applyAllF (ps : List RegexComposition) (cap : Nat) (input : List Nat) :
    Nat → Nat → Nat → Nat → Nat → List ScanIter × Nat × Nat
  | 0, _, _, line, col => ([], line, col)
  | fuel+1, pos, ntok, line, col =>
    if pos < input.length then
      match bestMatchLoop ps input pos with
      | (bestLen, some r) =>
        if ntok < cap then
          let lc := lineColUpd input (pos + bestLen) line col
          let rest := applyAllF ps cap input fuel (pos + bestLen) (ntok + 1) lc.1 lc.2
          (⟨pos, bestLen, some (rift_token_create r.start_token_type pos r.flags)⟩ :: rest.1, rest.2)
        else
          let lc := lineColUpd input (pos + 1) line col
          let rest := applyAllF ps cap input fuel (pos + 1) ntok lc.1 lc.2
          (⟨pos, 1, none⟩ :: rest.1, rest.2)
      | (_, none) =>
        if ntok < cap then
          let lc := lineColUpd input (pos + 1) line col
          let rest := applyAllF ps cap input fuel (pos + 1) (ntok + 1) lc.1 lc.2
          (⟨pos, 1, some (rift_token_create TOKEN_UNKNOWN pos 0)⟩ :: rest.1, rest.2)
        else
          let lc := lineColUpd input (pos + 1) line col
          let rest := applyAllF ps cap input fuel (pos + 1) ntok lc.1 lc.2
          (⟨pos, 1, none⟩ :: rest.1, rest.2)
    else ([], line, col)

/-- Run the scanner on a context as `rift_tokenizer_process_with_flags` does:
position and token count start at 0; line/column carry over from the context
(the per-scan reset does not touch them). -/
def scanRun (ctx : TokenizerContext) (input : List Nat) : List ScanIter × Nat × Nat :=
  applyAllF ctx.patterns ctx.token_capacity input input.length 0 0 ctx.line_number ctx.column_number

/-- The token buffer contents after the scan. -/
def scanTokens (ctx : TokenizerContext) (input : List Nat) : List TokenTriplet :=
  (scanRun ctx input).1.filterMap (fun it => it.emitted)

/-- The value `rift_rules_apply_all` returns: `total_tokens`, also stored into
`ctx->token_count` (the C's -1 null-argument path has no counterpart here). -/
def rift_rules_apply_all (ctx : TokenizerContext) (input : List Nat) : Nat :=
  (scanTokens ctx input).length

/-- Field `ctx->line_number` after the scan. -/
def scanLine (ctx : TokenizerContext) (input : List Nat) : Nat := (scanRun ctx input).2.1

/-- Field `ctx->column_number` after the scan. -/
def scanColumn (ctx : TokenizerContext) (input : List Nat) : Nat := (scanRun ctx input).2.2

/-! ### Stage-0 engine and dual-channel router (rift-0.c) -/

/-- Enum `RiftTokenType` (rift-0.c). -/
inductive RiftTokenType where
  | R_INIT_EMPTY
  | R_IDENTIFIER
  | R_NUMBER
  | R_OPERATOR
  | R_KEYWORD
  | R_STRING
  | R_COMMENT
  | R_WHITESPACE
  | R_QUANTUM_TOKEN
  | R_COLLAPSE_MARKER
  | R_ENTANGLE_MARKER
  | R_GOVERNANCE_TAG
  | R_CUSTOM_PATTERN
  | R_EOF
deriving DecidableEq, Repr

/-- Struct `RiftToken` (rift-0.c), restricted to the fields read by `tokenize_input`
and the routing loop of `process_stage0`. `value` is the lexeme string. -/
structure RiftToken where
  type : RiftTokenType
  value : List Nat
  line : Nat
  column : Nat
  is_quantum : Bool
deriving DecidableEq, Repr

/-- Function `create_token`: `is_quantum` is set iff the type is one of the three
quantum marker kinds; everything else starts cleared. Allocation is assumed to
succeed. -/
def create_token (t : RiftTokenType) (value : List Nat) (line col : Nat) : RiftToken :=
  { type := t, value := value, line := line, column := col,
    is_quantum :=
      t = RiftTokenType.R_QUANTUM_TOKEN ∨ t = RiftTokenType.R_COLLAPSE_MARKER ∨
        t = RiftTokenType.R_ENTANGLE_MARKER }

/-- The `stage0_patterns` table: token type and `is_quantum` flag per entry, in
table order (the regex texts live behind the `regexec` oracle below). -/
def stage0_patterns : List (RiftTokenType × Bool) :=
  [(RiftTokenType.R_IDENTIFIER, false), (RiftTokenType.R_NUMBER, false),
   (RiftTokenType.R_OPERATOR, false), (RiftTokenType.R_QUANTUM_TOKEN, true),
   (RiftTokenType.R_COLLAPSE_MARKER, true), (RiftTokenType.R_ENTANGLE_MARKER, true),
   (RiftTokenType.R_GOVERNANCE_TAG, false), (RiftTokenType.R_STRING, false),
   (RiftTokenType.R_COMMENT, false), (RiftTokenType.R_WHITESPACE, false)]

/-- Oracle for `regexec(&ctx->patterns[i], test_buffer, ...) == 0`: POSIX regex
execution is not modelled; the engine below is parameterised over it. -/
abbrev Matcher := Nat → List Nat → Bool

/-- Whitespace test of the `tokenize_input` skip/extraction logic: the skip
head handles space (32), tab (9) and line-feed (10); the extraction also stops
at NUL (the `*test_ptr` condition). -/
def isStopByte (b : Nat) : Bool :=
  b % 256 = 0 || b % 256 = 32 || b % 256 = 10 || b % 256 = 9

/-- The `test_buffer` extraction: the run of bytes from the cursor up to the next
space/tab/line-feed/NUL, capped at 255 bytes. -/
def testBuffer (inp : List Nat) : List Nat :=
  (inp.takeWhile (fun b => !(isStopByte b))).take 255

/-- The pattern loop of `tokenize_input`: the first table index whose regex
accepts the (non-empty) test buffer. -/
def firstMatch (m : Matcher) (pcount : Nat) (buf : List Nat) : Option Nat :=
  (List.range pcount).find? (fun i => decide (0 < buf.length) && m i buf)

/-- The lexeme `"!quantum"`. -/
def strQuantum : List Nat := [33, 113, 117, 97, 110, 116, 117, 109]

/-- The lexeme `"!classic"`. -/
def strClassic : List Nat := [33, 99, 108, 97, 115, 115, 105, 99]

/-- The `"EOF"` value of the synthetic terminal token. -/
def strEOF : List Nat := [69, 79, 70]

/-- The `while (*ptr)` loop of `tokenize_input`: skip space/tab (column
advances) and line-feed (line advances, column resets), otherwise extract the
test buffer and find the first matching pattern; on a match, emit a token via
`create_token`, toggle `quantum_mode_active` when the buffer is literally
`!quantum` / `!classic`, and advance by the buffer length; on no match, report
a warning (not modelled) and advance one byte. Returns the emitted tokens, the
final line and column, and the final quantum-mode flag. Fuel `inp.length`
dominates: every branch consumes at least one byte. -/
def tokenizeF (m : Matcher) (pcount : Nat) :
    Nat → List Nat → Nat → Nat → Bool → List RiftToken × Nat × Nat × Bool
  | 0, _, line, col, q => ([], line, col, q)
  | _fuel+1, [], line, col, q => ([], line, col, q)
  | fuel+1, c :: rest, line, col, q =>
    if c % 256 = 0 then ([], line, col, q)
    else if c % 256 = 32 ∨ c % 256 = 9 then tokenizeF m pcount fuel rest line (col + 1) q
    else if c % 256 = 10 then tokenizeF m pcount fuel rest (line + 1) 1 q
    else
      let buf := testBuffer (c :: rest)
      match firstMatch m pcount buf with
      | some pi =>
        let tok := create_token (stage0_patterns.getD pi (RiftTokenType.R_INIT_EMPTY, false)).1
          buf line col
        let q2 := if buf = strQuantum then true else if buf = strClassic then false else q
        let res := tokenizeF m pcount fuel ((c :: rest).drop buf.length) line (col + buf.length) q2
        (tok :: res.1, res.2)
      | none => tokenizeF m pcount fuel rest line (col + 1) q

/-- Function `tokenize_input`: run the loop from line 1, column 1, with quantum mode as
inherited from the context (`rift_stage0_create` starts it `false`), then
append the `R_EOF` token at the final line/column. Returns the token array and
the context's final `quantum_mode_active`. -/
def tokenize_input (m : Matcher) (input : List Nat) (qmode0 : Bool) :
    List RiftToken × Bool :=
  let r := tokenizeF m stage0_patterns.length input.length input 1 1 qmode0
  (r.1 ++ [create_token RiftTokenType.R_EOF strEOF r.2.1 r.2.2.1], r.2.2.2)

/-- The routing loop of `process_stage0`: a token goes to the quantum channel
iff `token->is_quantum || ctx->quantum_mode_active`, otherwise to the classic
channel, in token order. The routing runs after `tokenize_input` has returned,
so the mode flag consulted is the final (post-scan) one for every token.
Returns (classic, quantum). -/
def routeTokens (qmode : Bool) : List RiftToken → List RiftToken × List RiftToken
  | [] => ([], [])
  | t :: rest =>
    let r := routeTokens qmode rest
    if t.is_quantum || qmode then (r.1, t :: r.2) else (t :: r.1, r.2)

/-- Function `process_stage0` at the token level: tokenize, then route with the final
quantum-mode flag. -/
def process_stage0 (m : Matcher) (input : List Nat) (qmode0 : Bool) :
    List RiftToken × List RiftToken :=
  let tk := tokenize_input m input qmode0
  routeTokens tk.2 tk.1

/-- Rebuild a token sequence from the two channels and the per-position routing
decisions (`true` = quantum): the inverse direction of the routing split. -/
def unroute : List Bool → List RiftToken → List RiftToken → List RiftToken
  | [], _, _ => []
  | false :: fs, c :: cs, qs => c :: unroute fs cs qs
  | false :: _, [], _ => []
  | true :: fs, cs, q :: qs => q :: unroute fs cs qs
  | true :: _, _, [] => []

/-! ### Spec-side definitions

These do not come from the C sources; they transcribe the specification's
wording so that the scanner can be compared against it. -/

/-- Modelled from the spec: "Among the candidates, pick the one with the
greatest length. If several tie, pick the one with the highest priority. If
still tied, pick the earliest-registered." A candidate is a
(length, priority, kind) triple, listed in registration order. The C registry
(`rift_rules_register_pattern`) attaches no priority to a pattern, so the
priorities exist only on this spec side. -/
def specPick : List (Nat × Nat × Nat) → Option (Nat × Nat × Nat)
  | [] => none
  | c :: rest =>
    match specPick rest with
    | none => some c
    | some b => if c.1 < b.1 ∨ (c.1 = b.1 ∧ c.2.1 < b.2.1) then some b else some c

/-- Spec-side line count: one more than the number of line-feed bytes. -/
def lfCount (input : List Nat) : Nat := input.countP (fun b => decide (b % 256 = 10))

/-- Spec-side column aid: the number of bytes after the last line-feed (the
whole input when it has no line-feed). -/
def tailNoLF (input : List Nat) : Nat :=
  (input.reverse.takeWhile (fun b => !(decide (b % 256 = 10)))).length

/-! ### Analysis definitions -/

/-- A placeholder composition for total list indexing (`List.getD`). -/
def dummyRegex : RegexComposition :=
  { delta := fun _ _ => none, finals := [], start_token_type := 0, flags := 0,
    is_compiled := false, pattern := [] }

/-- The greatest `e - pos` over the listed end positions whose segment the
pattern accepts (0 when none is accepted). -/
def maxMatchLen (r : RegexComposition) (input : List Nat) (pos : Nat) : List Nat → Nat
  | [] => 0
  | e :: rest =>
    if matchSeg r input pos (e - pos) then
      max (e - pos) (maxMatchLen r input pos rest)
    else maxMatchLen r input pos rest

/-- One pattern's candidate length at `pos`: its longest accepted segment
within the input (0 when it accepts none). -/
def bestLenOf (r : RegexComposition) (input : List Nat) (pos : Nat) : Nat :=
  maxMatchLen r input pos (List.range' (pos+1) (input.length - pos))

/-- The per-pattern net effect of the scanner's candidate fold. -/
def foldBest (input : List Nat) (pos : Nat) :
    List RegexComposition → Nat × Option RegexComposition → Nat × Option RegexComposition
  | [], b => b
  | r :: rest, b =>
    foldBest input pos rest
      (if b.1 < bestLenOf r input pos then (bestLenOf r input pos, some r) else b)

/-- The line/column update viewed as a fold step over last-consumed bytes. -/
def lcStep (lc : Nat × Nat) (b : Nat) : Nat × Nat :=
  if b % 256 = 10 then (lc.1 + 1, 1) else (lc.1, lc.2 + 1)

/-- Shape invariant of the scanner's iteration list: starting from `pos`, the
iterations abut (`off` of each is the running position), consume at least one
byte each, stay within the input, and end exactly at `n`. -/
def itersChained (n : Nat) : Nat → List ScanIter → Prop
  | pos, [] => pos = n
  | pos, it :: rest =>
    it.off = pos ∧ 1 ≤ it.adv ∧ it.off + it.adv ≤ n ∧ itersChained n (pos + it.adv) rest

/-! ### Concrete fixtures -/

/-- A fresh context with token capacity 16 and pattern capacity 8
(line 1, column 1, lenient, no error — as `_tokenizer_init_context` sets up). -/
def ctx0 : TokenizerContext :=
  { patterns := [], pattern_capacity := 8, token_capacity := 16,
    line_number := 1, column_number := 1, strict_mode := false,
    has_error := false, error_code := 0 }

/-- The pattern text `[a-z]+`. -/
def azPlus : List Nat := [91, 97, 45, 122, 93, 43]

/-- The pattern text `if`. -/
def ifPat : List Nat := [105, 102]

/-- The pattern text `..` (two wildcards). -/
def dotdot : List Nat := [46, 46]

/-- Context `ctx0` after registering `[a-z]+` as `TOKEN_IDENTIFIER`. -/
def ctxA : TokenizerContext := (rift_rules_register_pattern [] ctx0 azPlus TOKEN_IDENTIFIER 0).2

/-- Context `ctxA` after registering `if` as `TOKEN_KEYWORD` (so: `[a-z]+` first,
`if` second, in registration order). -/
def ctxAB : TokenizerContext := (rift_rules_register_pattern [] ctxA ifPat TOKEN_KEYWORD 0).2

/-- Context `ctx0` after registering `..` with token type 5. -/
def ctxD : TokenizerContext := (rift_rules_register_pattern [] ctx0 dotdot 5 0).2

/-- Context `ctx0` with token capacity 1 (a capacity `rift_tokenizer_create_with_capacity`
accepts). -/
def ctxCap1 : TokenizerContext := { ctx0 with token_capacity := 1 }

/-- Context `ctx0` after `rift_tokenizer_set_strict_mode(ctx, true)`. -/
def ctxStrict : TokenizerContext := { ctx0 with strict_mode := true }

end Rift

namespace Rift

theorem rift_regex_match_nil (r : RegexComposition) : rift_regex_match r [] = false := by
  simp [rift_regex_match, rift_dfa_process_input, rift_dfa_is_accepting_state]

theorem matchSeg_zero (r : RegexComposition) (input : List Nat) (pos : Nat) :
    matchSeg r input pos 0 = false := by
  simp [matchSeg, rift_regex_match_nil]

theorem tryEnds_eq (r : RegexComposition) (input : List Nat) (pos : Nat) :
    ∀ (ends : List Nat) (b : Nat × Option RegexComposition),
      tryEnds r input pos b ends =
        if b.1 < maxMatchLen r input pos ends then (maxMatchLen r input pos ends, some r)
        else b := by
  intro ends
  induction ends with
  | nil =>
    intro b
    simp [tryEnds, maxMatchLen]
  | cons e rest ih =>
    intro b
    obtain ⟨bl, bo⟩ := b
    show tryEnds r input pos
        (if matchSeg r input pos (e - pos) = true then
          (if bl < e - pos then (e - pos, some r) else (bl, bo)) else (bl, bo)) rest = _
    by_cases hm : matchSeg r input pos (e - pos) = true
    · rw [if_pos hm]
      by_cases hc : bl < e - pos
      · rw [if_pos hc, ih]
        simp only [maxMatchLen, if_pos hm]
        rcases Nat.lt_or_ge (e - pos) (maxMatchLen r input pos rest) with h | h
        · rw [if_pos h, if_pos (by omega), Nat.max_eq_right (Nat.le_of_lt h)]
        · rw [if_neg (by omega), if_pos (by omega), Nat.max_eq_left h]
      · rw [if_neg hc, ih]
        simp only [maxMatchLen, if_pos hm]
        by_cases h2 : bl < maxMatchLen r input pos rest
        · rw [if_pos h2, if_pos (by omega)]
          have : max (e - pos) (maxMatchLen r input pos rest) = maxMatchLen r input pos rest := by
            omega
          rw [this]
        · rw [if_neg h2, if_neg (by omega)]
    · rw [if_neg hm, ih]
      simp only [maxMatchLen, if_neg hm]

theorem bestMatchLoop_eq_foldBest (ps : List RegexComposition) (input : List Nat) (pos : Nat) :
    bestMatchLoop ps input pos = foldBest input pos ps (0, none) := by
  show List.foldl _ (0, none) ps = _
  generalize (0, (none : Option RegexComposition)) = b
  induction ps generalizing b with
  | nil => rfl
  | cons r rest ih =>
    show List.foldl _ (tryEnds r input pos b _) rest = _
    rw [tryEnds_eq, ih]
    rfl

theorem foldBest_spec (input : List Nat) (pos : Nat) :
    ∀ (ps : List RegexComposition) (b : Nat × Option RegexComposition),
      (∀ r ∈ ps, bestLenOf r input pos ≤ (foldBest input pos ps b).1) ∧
      b.1 ≤ (foldBest input pos ps b).1 ∧
      (foldBest input pos ps b = b ∨
        ∃ i, i < ps.length ∧
          (foldBest input pos ps b).2 = some (ps.getD i dummyRegex) ∧
          (foldBest input pos ps b).1 = bestLenOf (ps.getD i dummyRegex) input pos ∧
          b.1 < (foldBest input pos ps b).1 ∧
          ∀ j, j < i → bestLenOf (ps.getD j dummyRegex) input pos < (foldBest input pos ps b).1) := by
  intro ps
  induction ps with
  | nil =>
    intro b
    refine ⟨by simp, Nat.le_refl _, Or.inl rfl⟩
  | cons r rest ih =>
    intro b
    by_cases hu : b.1 < bestLenOf r input pos
    · -- update to (bestLenOf r, some r)
      have hfb : foldBest input pos (r :: rest) b
          = foldBest input pos rest (bestLenOf r input pos, some r) := by
        show foldBest input pos rest (if b.1 < bestLenOf r input pos then _ else b) = _
        rw [if_pos hu]
      obtain ⟨ih1, ih2, ih3⟩ := ih (bestLenOf r input pos, some r)
      refine ⟨?_, ?_, ?_⟩
      · intro r' hr'
        rcases List.mem_cons.mp hr' with h | h
        · subst h; rw [hfb]; exact ih2
        · rw [hfb]; exact ih1 r' h
      · rw [hfb]; omega
      · right
        rcases ih3 with heq | ⟨i, hi, h2, h3, h4, h5⟩
        · refine ⟨0, by simp, ?_, ?_, ?_, ?_⟩
          · rw [hfb, heq]; simp
          · rw [hfb, heq]; simp
          · rw [hfb, heq]; exact hu
          · intro j hj; omega
        · refine ⟨i + 1, by simpa using hi, ?_, ?_, ?_, ?_⟩
          · rw [hfb]; simpa using h2
          · rw [hfb]; simpa using h3
          · rw [hfb]; omega
          · intro j hj
            match j with
            | 0 =>
              rw [hfb]
              simp only [List.getD_cons_zero]
              omega
            | Nat.succ j' =>
              rw [hfb]
              simpa using h5 j' (by omega)
    · -- no update
      have hfb : foldBest input pos (r :: rest) b = foldBest input pos rest b := by
        show foldBest input pos rest (if b.1 < bestLenOf r input pos then _ else b) = _
        rw [if_neg hu]
      obtain ⟨ih1, ih2, ih3⟩ := ih b
      refine ⟨?_, by rw [hfb]; exact ih2, ?_⟩
      · intro r' hr'
        rcases List.mem_cons.mp hr' with h | h
        · subst h; rw [hfb]; omega
        · rw [hfb]; exact ih1 r' h
      · rcases ih3 with heq | ⟨i, hi, h2, h3, h4, h5⟩
        · left; rw [hfb, heq]
        · right
          refine ⟨i + 1, by simpa using hi, ?_, ?_, ?_, ?_⟩
          · rw [hfb]; simpa using h2
          · rw [hfb]; simpa using h3
          · rw [hfb]; omega
          · intro j hj
            match j with
            | 0 =>
              rw [hfb]
              simp only [List.getD_cons_zero]
              omega
            | Nat.succ j' =>
              rw [hfb]
              simpa using h5 j' (by omega)


theorem maxMatchLen_cases (r : RegexComposition) (input : List Nat) (pos : Nat) :
    ∀ ends : List Nat, maxMatchLen r input pos ends = 0 ∨
      ∃ e ∈ ends, matchSeg r input pos (e - pos) = true ∧
        maxMatchLen r input pos ends = e - pos := by
  intro ends
  induction ends with
  | nil => left; rfl
  | cons e rest ih =>
    by_cases hm : matchSeg r input pos (e - pos) = true
    · right
      rcases Nat.le_total (e - pos) (maxMatchLen r input pos rest) with h | h
      · rcases ih with h0 | ⟨e2, he2, hm2, heq⟩
        · refine ⟨e, List.mem_cons_self .., hm, ?_⟩
          simp only [maxMatchLen, if_pos hm, h0]
          omega
        · refine ⟨e2, List.mem_cons_of_mem _ he2, hm2, ?_⟩
          simp only [maxMatchLen, if_pos hm, heq]
          omega
      · refine ⟨e, List.mem_cons_self .., hm, ?_⟩
        simp only [maxMatchLen, if_pos hm]
        omega
    · rcases ih with h0 | ⟨e2, he2, hm2, heq⟩
      · left; simp only [maxMatchLen, if_neg hm, h0]
      · right
        exact ⟨e2, List.mem_cons_of_mem _ he2, hm2, by simp only [maxMatchLen, if_neg hm, heq]⟩

theorem le_maxMatchLen (r : RegexComposition) (input : List Nat) (pos : Nat) :
    ∀ (ends : List Nat) (e : Nat), e ∈ ends → matchSeg r input pos (e - pos) = true →
      e - pos ≤ maxMatchLen r input pos ends := by
  intro ends
  induction ends with
  | nil => intro e he; cases he
  | cons e2 rest ih =>
    intro e he hm
    rcases List.mem_cons.mp he with h | h
    · subst h
      simp only [maxMatchLen, if_pos hm]
      omega
    · have := ih e h hm
      by_cases hm2 : matchSeg r input pos (e2 - pos) = true
      · simp only [maxMatchLen, if_pos hm2]; omega
      · simp only [maxMatchLen, if_neg hm2]; exact this

theorem bestLenOf_le (r : RegexComposition) (input : List Nat) (pos : Nat) :
    bestLenOf r input pos ≤ input.length - pos := by
  rcases maxMatchLen_cases r input pos (List.range' (pos+1) (input.length - pos)) with h | h
  · rw [bestLenOf, h]; omega
  · obtain ⟨e, he, _, heq⟩ := h
    rw [List.mem_range'_1] at he
    rw [bestLenOf, heq]
    omega

theorem bestLenOf_pos_spec (r : RegexComposition) (input : List Nat) (pos : Nat)
    (h : 0 < bestLenOf r input pos) :
    matchSeg r input pos (bestLenOf r input pos) = true ∧
      pos + bestLenOf r input pos ≤ input.length := by
  rcases maxMatchLen_cases r input pos (List.range' (pos+1) (input.length - pos)) with h0 | hx
  · rw [bestLenOf, h0] at h; omega
  · obtain ⟨e, he, hm, heq⟩ := hx
    rw [List.mem_range'_1] at he
    rw [bestLenOf, heq]
    exact ⟨hm, by omega⟩

theorem le_bestLenOf (r : RegexComposition) (input : List Nat) (pos l : Nat)
    (h1 : 1 ≤ l) (h2 : pos + l ≤ input.length) (hm : matchSeg r input pos l = true) :
    l ≤ bestLenOf r input pos := by
  have he : pos + l ∈ List.range' (pos+1) (input.length - pos) := by
    rw [List.mem_range'_1]
    omega
  have := le_maxMatchLen r input pos _ (pos + l) he (by simpa using hm)
  simpa [bestLenOf] using this

theorem bestMatchLoop_some (ps : List RegexComposition) (input : List Nat) (pos L : Nat)
    (r : RegexComposition)
    (h : bestMatchLoop ps input pos = (L, some r)) :
    1 ≤ L ∧ pos + L ≤ input.length ∧
      ∃ i, i < ps.length ∧ r = ps.getD i dummyRegex ∧
        matchSeg (ps.getD i dummyRegex) input pos L = true ∧
        bestLenOf (ps.getD i dummyRegex) input pos = L ∧
        (∀ j, j < ps.length → bestLenOf (ps.getD j dummyRegex) input pos ≤ L) ∧
        (∀ j, j < i → bestLenOf (ps.getD j dummyRegex) input pos < L) := by
  rw [bestMatchLoop_eq_foldBest] at h
  obtain ⟨c1, _, c3⟩ := foldBest_spec input pos ps (0, none)
  rcases c3 with heq | ⟨i, hi, h2, h3, h4, h5⟩
  · rw [heq] at h
    exact absurd (congrArg Prod.snd h) (by simp)
  · have hL : (foldBest input pos ps (0, none)).1 = L := by rw [h]
    have hr : (foldBest input pos ps (0, none)).2 = some r := by rw [h]
    rw [hr] at h2
    rw [hL] at h3 h4 h5
    have hLpos : 1 ≤ L := by omega
    have hbl : bestLenOf (ps.getD i dummyRegex) input pos = L := h3.symm
    have hms := bestLenOf_pos_spec (ps.getD i dummyRegex) input pos (by omega)
    rw [hbl] at hms
    refine ⟨hLpos, hms.2, i, hi, by injection h2, hms.1, hbl, ?_, h5⟩
    intro j hj
    have hmem : ps.getD j dummyRegex ∈ ps := by
      rw [List.getD_eq_getElem ps dummyRegex hj]
      exact List.getElem_mem hj
    have := c1 _ hmem
    omega

theorem bestMatchLoop_none (ps : List RegexComposition) (input : List Nat) (pos L : Nat)
    (h : bestMatchLoop ps input pos = (L, none)) :
    L = 0 ∧ ∀ j l, j < ps.length → pos + l ≤ input.length →
      matchSeg (ps.getD j dummyRegex) input pos l = false := by
  rw [bestMatchLoop_eq_foldBest] at h
  obtain ⟨c1, _, c3⟩ := foldBest_spec input pos ps (0, none)
  rcases c3 with heq | ⟨i, hi, h2, h3, h4, h5⟩
  · rw [heq] at h
    have hL : L = 0 := by
      have := congrArg Prod.fst h
      simpa using this.symm
    refine ⟨hL, ?_⟩
    intro j l hj hl
    by_contra hm
    rw [Bool.not_eq_false] at hm
    rcases Nat.eq_zero_or_pos l with h0 | h0
    · rw [h0, matchSeg_zero] at hm
      exact Bool.false_ne_true hm
    · have hle := le_bestLenOf _ input pos l h0 hl hm
      have hmem : ps.getD j dummyRegex ∈ ps := by
        rw [List.getD_eq_getElem ps dummyRegex hj]
        exact List.getElem_mem hj
      have hb : bestLenOf (ps.getD j dummyRegex) input pos ≤ 0 := by
        calc bestLenOf (ps.getD j dummyRegex) input pos
            ≤ (foldBest input pos ps (0, none)).1 := c1 _ hmem
          _ = 0 := by rw [heq]
      omega
  · rw [h] at h2
    exact absurd h2 (by simp)


theorem bestMatchLoop_nil (input : List Nat) (pos : Nat) :
    bestMatchLoop [] input pos = (0, none) := rfl

theorem applyAllF_zero (ps : List RegexComposition) (cap : Nat) (input : List Nat)
    (pos ntok line col : Nat) :
    applyAllF ps cap input 0 pos ntok line col = ([], line, col) := rfl

theorem applyAllF_stop (ps : List RegexComposition) (cap : Nat) (input : List Nat)
    (fuel pos ntok line col : Nat) (h : ¬ pos < input.length) :
    applyAllF ps cap input (fuel+1) pos ntok line col = ([], line, col) := by
  simp only [applyAllF, if_neg h]

theorem applyAllF_step_match (ps : List RegexComposition) (cap : Nat) (input : List Nat)
    (fuel pos ntok line col bestLen : Nat) (r : RegexComposition)
    (hlt : pos < input.length) (hbm : bestMatchLoop ps input pos = (bestLen, some r))
    (hc : ntok < cap) :
    applyAllF ps cap input (fuel+1) pos ntok line col =
      ((⟨pos, bestLen, some (rift_token_create r.start_token_type pos r.flags)⟩ : ScanIter) ::
        (applyAllF ps cap input fuel (pos + bestLen) (ntok + 1)
          (lineColUpd input (pos + bestLen) line col).1
          (lineColUpd input (pos + bestLen) line col).2).1,
       (applyAllF ps cap input fuel (pos + bestLen) (ntok + 1)
          (lineColUpd input (pos + bestLen) line col).1
          (lineColUpd input (pos + bestLen) line col).2).2) := by
  simp only [applyAllF, if_pos hlt, hbm, if_pos hc]

theorem applyAllF_step_match_full (ps : List RegexComposition) (cap : Nat) (input : List Nat)
    (fuel pos ntok line col bestLen : Nat) (r : RegexComposition)
    (hlt : pos < input.length) (hbm : bestMatchLoop ps input pos = (bestLen, some r))
    (hc : ¬ ntok < cap) :
    applyAllF ps cap input (fuel+1) pos ntok line col =
      ((⟨pos, 1, none⟩ : ScanIter) ::
        (applyAllF ps cap input fuel (pos + 1) ntok
          (lineColUpd input (pos + 1) line col).1 (lineColUpd input (pos + 1) line col).2).1,
       (applyAllF ps cap input fuel (pos + 1) ntok
          (lineColUpd input (pos + 1) line col).1 (lineColUpd input (pos + 1) line col).2).2) := by
  simp only [applyAllF, if_pos hlt, hbm, if_neg hc]

theorem applyAllF_step_none (ps : List RegexComposition) (cap : Nat) (input : List Nat)
    (fuel pos ntok line col L : Nat)
    (hlt : pos < input.length) (hbm : bestMatchLoop ps input pos = (L, none))
    (hc : ntok < cap) :
    applyAllF ps cap input (fuel+1) pos ntok line col =
      ((⟨pos, 1, some (rift_token_create TOKEN_UNKNOWN pos 0)⟩ : ScanIter) ::
        (applyAllF ps cap input fuel (pos + 1) (ntok + 1)
          (lineColUpd input (pos + 1) line col).1 (lineColUpd input (pos + 1) line col).2).1,
       (applyAllF ps cap input fuel (pos + 1) (ntok + 1)
          (lineColUpd input (pos + 1) line col).1 (lineColUpd input (pos + 1) line col).2).2) := by
  simp only [applyAllF, if_pos hlt, hbm, if_pos hc]

theorem applyAllF_step_none_full (ps : List RegexComposition) (cap : Nat) (input : List Nat)
    (fuel pos ntok line col L : Nat)
    (hlt : pos < input.length) (hbm : bestMatchLoop ps input pos = (L, none))
    (hc : ¬ ntok < cap) :
    applyAllF ps cap input (fuel+1) pos ntok line col =
      ((⟨pos, 1, none⟩ : ScanIter) ::
        (applyAllF ps cap input fuel (pos + 1) ntok
          (lineColUpd input (pos + 1) line col).1 (lineColUpd input (pos + 1) line col).2).1,
       (applyAllF ps cap input fuel (pos + 1) ntok
          (lineColUpd input (pos + 1) line col).1 (lineColUpd input (pos + 1) line col).2).2) := by
  simp only [applyAllF, if_pos hlt, hbm, if_neg hc]


theorem applyAllF_chained (ps : List RegexComposition) (cap : Nat) (input : List Nat) :
    ∀ fuel pos ntok line col, input.length - pos ≤ fuel → pos ≤ input.length →
      itersChained input.length pos (applyAllF ps cap input fuel pos ntok line col).1 := by
  intro fuel
  induction fuel with
  | zero =>
    intro pos ntok line col hf hp
    rw [applyAllF_zero]
    show pos = input.length
    omega
  | succ fuel ih =>
    intro pos ntok line col hf hp
    by_cases hlt : pos < input.length
    · cases hbm : bestMatchLoop ps input pos with
    | mk bestLen ro =>
      cases ro with
      | some r =>
        obtain ⟨h1, h2, _⟩ := bestMatchLoop_some ps input pos bestLen r hbm
        by_cases hc : ntok < cap
        · rw [applyAllF_step_match ps cap input fuel pos ntok line col bestLen r hlt hbm hc]
          exact ⟨rfl, h1, h2, ih (pos + bestLen) _ _ _ (by omega) (by omega)⟩
        · rw [applyAllF_step_match_full ps cap input fuel pos ntok line col bestLen r hlt hbm hc]
          exact ⟨rfl, Nat.le_refl 1, by show pos + 1 ≤ input.length; omega,
            ih (pos + 1) _ _ _ (by omega) (by omega)⟩
      | none =>
        by_cases hc : ntok < cap
        · rw [applyAllF_step_none ps cap input fuel pos ntok line col bestLen hlt hbm hc]
          exact ⟨rfl, Nat.le_refl 1, by show pos + 1 ≤ input.length; omega,
            ih (pos + 1) _ _ _ (by omega) (by omega)⟩
        · rw [applyAllF_step_none_full ps cap input fuel pos ntok line col bestLen hlt hbm hc]
          exact ⟨rfl, Nat.le_refl 1, by show pos + 1 ≤ input.length; omega,
            ih (pos + 1) _ _ _ (by omega) (by omega)⟩
    · rw [applyAllF_stop ps cap input fuel pos ntok line col hlt]
      show pos = input.length
      omega

theorem itersChained_sum (n : Nat) :
    ∀ (iters : List ScanIter) (pos : Nat), itersChained n pos iters →
      pos + (iters.map (fun it => it.adv)).sum = n := by
  intro iters
  induction iters with
  | nil => intro pos h; simpa [itersChained] using h
  | cons it rest ih =>
    intro pos h
    obtain ⟨h1, h2, h3, h4⟩ := h
    have := ih (pos + it.adv) h4
    simp only [List.map_cons, List.sum_cons]
    omega

theorem itersChained_len (n : Nat) :
    ∀ (iters : List ScanIter) (pos : Nat), itersChained n pos iters →
      iters.length ≤ n - pos := by
  intro iters
  induction iters with
  | nil => intro pos _; simp
  | cons it rest ih =>
    intro pos h
    obtain ⟨h1, h2, h3, h4⟩ := h
    have := ih (pos + it.adv) h4
    simp only [List.length_cons]
    omega

theorem itersChained_adv (n : Nat) :
    ∀ (iters : List ScanIter) (pos : Nat), itersChained n pos iters →
      ∀ it ∈ iters, 1 ≤ it.adv ∧ it.off + it.adv ≤ n := by
  intro iters
  induction iters with
  | nil => intro pos _ it hit; cases hit
  | cons it0 rest ih =>
    intro pos h it hit
    obtain ⟨h1, h2, h3, h4⟩ := h
    rcases List.mem_cons.mp hit with h | h
    · subst h; exact ⟨h2, h3⟩
    · exact ih (pos + it0.adv) h4 it h

theorem itersChained_abut (n : Nat) :
    ∀ (iters : List ScanIter) (pos : Nat), itersChained n pos iters →
      List.Chain' (fun a b => b.off = a.off + a.adv) iters := by
  intro iters
  induction iters with
  | nil => intro pos _; exact List.chain'_nil
  | cons it0 rest ih =>
    intro pos h
    obtain ⟨h1, h2, h3, h4⟩ := h
    rcases rest with _ | ⟨it1, rest⟩
    · simp
    · obtain ⟨g1, g2, g3, g4⟩ := h4
      refine List.Chain'.cons ?_ (ih (pos + it0.adv) ⟨g1, g2, g3, g4⟩)
      omega

theorem itersChained_mono (n : Nat) :
    ∀ (iters : List ScanIter) (pos : Nat), itersChained n pos iters →
      List.Chain' (fun a b => a.off < b.off) iters := by
  intro iters
  induction iters with
  | nil => intro pos _; exact List.chain'_nil
  | cons it0 rest ih =>
    intro pos h
    obtain ⟨h1, h2, h3, h4⟩ := h
    rcases rest with _ | ⟨it1, rest⟩
    · simp
    · obtain ⟨g1, g2, g3, g4⟩ := h4
      refine List.Chain'.cons ?_ (ih (pos + it0.adv) ⟨g1, g2, g3, g4⟩)
      omega

theorem applyAllF_all_emit (ps : List RegexComposition) (cap : Nat) (input : List Nat) :
    ∀ fuel pos ntok line col, input.length - pos ≤ fuel →
      ntok + (input.length - pos) ≤ cap →
      ∀ it ∈ (applyAllF ps cap input fuel pos ntok line col).1, it.emitted.isSome = true := by
  intro fuel
  induction fuel with
  | zero =>
    intro pos ntok line col _ _ it hit
    rw [applyAllF_zero] at hit
    cases hit
  | succ fuel ih =>
    intro pos ntok line col hf hcap it hit
    by_cases hlt : pos < input.length
    · have hc : ntok < cap := by omega
      cases hbm : bestMatchLoop ps input pos with
      | mk bestLen ro =>
        cases ro with
        | some r =>
          obtain ⟨h1, h2, _⟩ := bestMatchLoop_some ps input pos bestLen r hbm
          rw [applyAllF_step_match ps cap input fuel pos ntok line col bestLen r hlt hbm hc] at hit
          rcases List.mem_cons.mp hit with h | h
          · subst h; rfl
          · exact ih (pos + bestLen) (ntok + 1) _ _ (by omega) (by omega) it h
        | none =>
          rw [applyAllF_step_none ps cap input fuel pos ntok line col bestLen hlt hbm hc] at hit
          rcases List.mem_cons.mp hit with h | h
          · subst h; rfl
          · exact ih (pos + 1) (ntok + 1) _ _ (by omega) (by omega) it h
    · rw [applyAllF_stop ps cap input fuel pos ntok line col hlt] at hit
      cases hit

theorem applyAllF_memptr (ps : List RegexComposition) (cap : Nat) (input : List Nat) :
    ∀ fuel pos ntok line col it t, it ∈ (applyAllF ps cap input fuel pos ntok line col).1 →
      it.emitted = some t → t.mem_ptr = it.off % 65536 := by
  intro fuel
  induction fuel with
  | zero =>
    intro pos ntok line col it t hit _
    rw [applyAllF_zero] at hit
    cases hit
  | succ fuel ih =>
    intro pos ntok line col it t hit hem
    by_cases hlt : pos < input.length
    · cases hbm : bestMatchLoop ps input pos with
      | mk bestLen ro =>
        cases ro with
        | some r =>
          by_cases hc : ntok < cap
          · rw [applyAllF_step_match ps cap input fuel pos ntok line col bestLen r hlt hbm hc] at hit
            rcases List.mem_cons.mp hit with h | h
            · subst h
              obtain rfl : rift_token_create r.start_token_type pos r.flags = t := by
                injection hem
              rfl
            · exact ih (pos + bestLen) (ntok + 1) _ _ it t h hem
          · rw [applyAllF_step_match_full ps cap input fuel pos ntok line col bestLen r hlt hbm hc] at hit
            rcases List.mem_cons.mp hit with h | h
            · subst h; cases hem
            · exact ih (pos + 1) ntok _ _ it t h hem
        | none =>
          by_cases hc : ntok < cap
          · rw [applyAllF_step_none ps cap input fuel pos ntok line col bestLen hlt hbm hc] at hit
            rcases List.mem_cons.mp hit with h | h
            · subst h
              obtain rfl : rift_token_create TOKEN_UNKNOWN pos 0 = t := by
                injection hem
              rfl
            · exact ih (pos + 1) (ntok + 1) _ _ it t h hem
          · rw [applyAllF_step_none_full ps cap input fuel pos ntok line col bestLen hlt hbm hc] at hit
            rcases List.mem_cons.mp hit with h | h
            · subst h; cases hem
            · exact ih (pos + 1) ntok _ _ it t h hem
    · rw [applyAllF_stop ps cap input fuel pos ntok line col hlt] at hit
      cases hit


theorem lineColUpd_eq_lcStep (input : List Nat) (newPos line col : Nat) :
    lineColUpd input newPos line col = lcStep (line, col) (getB input (newPos - 1)) := by
  unfold lineColUpd lcStep
  have h : getB input (newPos - 1) % 256 = getB input (newPos - 1) := by
    unfold getB; omega
  rw [h]

theorem lcStep_mod (lc : Nat × Nat) (b : Nat) : lcStep lc (b % 256) = lcStep lc b := by
  unfold lcStep
  have h : b % 256 % 256 = b % 256 := by omega
  rw [h]

theorem applyAllF_lc (ps : List RegexComposition) (cap : Nat) (input : List Nat) :
    ∀ fuel pos ntok line col,
      (applyAllF ps cap input fuel pos ntok line col).2 =
        ((applyAllF ps cap input fuel pos ntok line col).1.map
          (fun it => getB input (it.off + it.adv - 1))).foldl lcStep (line, col) := by
  intro fuel
  induction fuel with
  | zero => intro pos ntok line col; rfl
  | succ fuel ih =>
    intro pos ntok line col
    by_cases hlt : pos < input.length
    · cases hbm : bestMatchLoop ps input pos with
      | mk bestLen ro =>
        cases ro with
        | some r =>
          by_cases hc : ntok < cap
          · rw [applyAllF_step_match ps cap input fuel pos ntok line col bestLen r hlt hbm hc]
            simp only [List.map_cons, List.foldl_cons]
            rw [ih (pos + bestLen) (ntok + 1) (lineColUpd input (pos + bestLen) line col).1
              (lineColUpd input (pos + bestLen) line col).2]
            congr 1
            exact lineColUpd_eq_lcStep input (pos + bestLen) line col
          · rw [applyAllF_step_match_full ps cap input fuel pos ntok line col bestLen r hlt hbm hc]
            simp only [List.map_cons, List.foldl_cons]
            rw [ih (pos + 1) ntok (lineColUpd input (pos + 1) line col).1
              (lineColUpd input (pos + 1) line col).2]
            congr 1
            exact lineColUpd_eq_lcStep input (pos + 1) line col
        | none =>
          by_cases hc : ntok < cap
          · rw [applyAllF_step_none ps cap input fuel pos ntok line col bestLen hlt hbm hc]
            simp only [List.map_cons, List.foldl_cons]
            rw [ih (pos + 1) (ntok + 1) (lineColUpd input (pos + 1) line col).1
              (lineColUpd input (pos + 1) line col).2]
            congr 1
            exact lineColUpd_eq_lcStep input (pos + 1) line col
          · rw [applyAllF_step_none_full ps cap input fuel pos ntok line col bestLen hlt hbm hc]
            simp only [List.map_cons, List.foldl_cons]
            rw [ih (pos + 1) ntok (lineColUpd input (pos + 1) line col).1
              (lineColUpd input (pos + 1) line col).2]
            congr 1
            exact lineColUpd_eq_lcStep input (pos + 1) line col
    · rw [applyAllF_stop ps cap input fuel pos ntok line col hlt]
      rfl

theorem applyAllF_nil_lc (cap : Nat) (input : List Nat) :
    ∀ fuel pos ntok line col, input.length - pos ≤ fuel → pos ≤ input.length →
      (applyAllF [] cap input fuel pos ntok line col).2 =
        (input.drop pos).foldl lcStep (line, col) := by
  intro fuel
  induction fuel with
  | zero =>
    intro pos ntok line col hf hp
    rw [applyAllF_zero]
    have hpe : pos = input.length := by omega
    subst hpe
    rw [List.drop_length]
    rfl
  | succ fuel ih =>
    intro pos ntok line col hf hp
    by_cases hlt : pos < input.length
    · have hbm : bestMatchLoop [] input pos = (0, none) := rfl
      have hstep : ∀ l c, lcStep (l, c) (input.get ⟨pos, hlt⟩) = lineColUpd input (pos + 1) l c := by
        intro l c
        rw [lineColUpd_eq_lcStep]
        show lcStep (l, c) (input.get ⟨pos, hlt⟩) = lcStep (l, c) (getB input pos)
        unfold getB
        rw [List.getD_eq_getElem input 0 hlt]
        rw [lcStep_mod]
        rfl
      by_cases hc : ntok < cap
      · rw [applyAllF_step_none [] cap input fuel pos ntok line col 0 hlt hbm hc]
        show (applyAllF [] cap input fuel (pos + 1) (ntok + 1)
          (lineColUpd input (pos + 1) line col).1 (lineColUpd input (pos + 1) line col).2).2 = _
        rw [ih (pos + 1) (ntok + 1) _ _ (by omega) (by omega)]
        rw [List.drop_eq_getElem_cons hlt, List.foldl_cons]
        congr 1
        rw [← hstep line col]
        rfl
      · rw [applyAllF_step_none_full [] cap input fuel pos ntok line col 0 hlt hbm hc]
        show (applyAllF [] cap input fuel (pos + 1) ntok
          (lineColUpd input (pos + 1) line col).1 (lineColUpd input (pos + 1) line col).2).2 = _
        rw [ih (pos + 1) ntok _ _ (by omega) (by omega)]
        rw [List.drop_eq_getElem_cons hlt, List.foldl_cons]
        congr 1
        rw [← hstep line col]
        rfl
    · rw [applyAllF_stop [] cap input fuel pos ntok line col hlt]
      have hpe : pos = input.length := by omega
      subst hpe
      rw [List.drop_length]
      rfl

theorem foldl_lcStep_spec (xs : List Nat) :
    xs.foldl lcStep (1, 1) = (1 + lfCount xs, tailNoLF xs + 1) := by
  induction xs using List.reverseRecOn with
  | nil => rfl
  | append_singleton ys y ih =>
    rw [List.foldl_append, ih]
    show lcStep (1 + lfCount ys, tailNoLF ys + 1) y
      = (1 + lfCount (ys ++ [y]), tailNoLF (ys ++ [y]) + 1)
    have hcount : lfCount (ys ++ [y]) = lfCount ys + (if y % 256 = 10 then 1 else 0) := by
      simp only [lfCount, List.countP_append, List.countP_cons, List.countP_nil]
      by_cases hy : y % 256 = 10 <;> simp [hy]
    have htail : tailNoLF (ys ++ [y]) = if y % 256 = 10 then 0 else tailNoLF ys + 1 := by
      simp only [tailNoLF, List.reverse_append, List.reverse_singleton, List.singleton_append,
        List.takeWhile_cons]
      by_cases hy : y % 256 = 10 <;> simp [hy]
    rw [hcount, htail]
    by_cases hy : y % 256 = 10
    · rw [if_pos hy, if_pos hy]
      have hl : lcStep (1 + lfCount ys, tailNoLF ys + 1) y = (1 + lfCount ys + 1, 1) := by
        unfold lcStep
        rw [if_pos hy]
      rw [hl]
      rfl
    · rw [if_neg hy, if_neg hy]
      have hl : lcStep (1 + lfCount ys, tailNoLF ys + 1) y
          = (1 + lfCount ys, tailNoLF ys + 1 + 1) := by
        unfold lcStep
        rw [if_neg hy]
      rw [hl]
      rfl


theorem stage0_getD_fst_ne_eof (i : Nat) :
    (stage0_patterns.getD i (RiftTokenType.R_INIT_EMPTY, false)).1 ≠ RiftTokenType.R_EOF := by
  match i with
  | 0 => decide
  | 1 => decide
  | 2 => decide
  | 3 => decide
  | 4 => decide
  | 5 => decide
  | 6 => decide
  | 7 => decide
  | 8 => decide
  | 9 => decide
  | n+10 =>
    rw [List.getD_eq_default]
    · decide
    · show stage0_patterns.length ≤ n + 10
      simp [stage0_patterns]

theorem create_token_is_quantum (t : RiftTokenType) (v : List Nat) (line col : Nat) :
    (create_token t v line col).is_quantum = true ↔
      (t = RiftTokenType.R_QUANTUM_TOKEN ∨ t = RiftTokenType.R_COLLAPSE_MARKER ∨
        t = RiftTokenType.R_ENTANGLE_MARKER) := by
  simp [create_token]

theorem tokenizeF_tok_inv (m : Matcher) (pcount : Nat) :
    ∀ fuel inp line col q, ∀ t ∈ (tokenizeF m pcount fuel inp line col q).1,
      (∃ i, t.type = (stage0_patterns.getD i (RiftTokenType.R_INIT_EMPTY, false)).1) ∧
      (t.is_quantum = true ↔ (t.type = RiftTokenType.R_QUANTUM_TOKEN ∨
        t.type = RiftTokenType.R_COLLAPSE_MARKER ∨
        t.type = RiftTokenType.R_ENTANGLE_MARKER)) := by
  intro fuel
  induction fuel with
  | zero => intro inp line col q t ht; cases ht
  | succ fuel ih =>
    intro inp line col q t ht
    match inp with
    | [] => cases ht
    | c :: rest =>
      rw [show tokenizeF m pcount (fuel+1) (c :: rest) line col q =
        (if c % 256 = 0 then ([], line, col, q)
         else if c % 256 = 32 ∨ c % 256 = 9 then tokenizeF m pcount fuel rest line (col + 1) q
         else if c % 256 = 10 then tokenizeF m pcount fuel rest (line + 1) 1 q
         else
           match firstMatch m pcount (testBuffer (c :: rest)) with
           | some pi =>
             ((create_token
                 (stage0_patterns.getD pi (RiftTokenType.R_INIT_EMPTY, false)).1
                 (testBuffer (c :: rest)) line col) ::
               (tokenizeF m pcount fuel ((c :: rest).drop (testBuffer (c :: rest)).length) line
                 (col + (testBuffer (c :: rest)).length)
                 (if testBuffer (c :: rest) = strQuantum then true
                  else if testBuffer (c :: rest) = strClassic then false else q)).1,
              (tokenizeF m pcount fuel ((c :: rest).drop (testBuffer (c :: rest)).length) line
                 (col + (testBuffer (c :: rest)).length)
                 (if testBuffer (c :: rest) = strQuantum then true
                  else if testBuffer (c :: rest) = strClassic then false else q)).2)
           | none => tokenizeF m pcount fuel rest line (col + 1) q) from rfl] at ht
      by_cases h0 : c % 256 = 0
      · rw [if_pos h0] at ht; cases ht
      · rw [if_neg h0] at ht
        by_cases h1 : c % 256 = 32 ∨ c % 256 = 9
        · rw [if_pos h1] at ht
          exact ih rest line (col + 1) q t ht
        · rw [if_neg h1] at ht
          by_cases h2 : c % 256 = 10
          · rw [if_pos h2] at ht
            exact ih rest (line + 1) 1 q t ht
          · rw [if_neg h2] at ht
            cases hfm : firstMatch m pcount (testBuffer (c :: rest)) with
            | some pi =>
              rw [hfm] at ht
              rcases List.mem_cons.mp ht with h | h
              · subst h
                refine ⟨⟨pi, rfl⟩, ?_⟩
                exact create_token_is_quantum _ _ _ _
              · exact ih _ _ _ _ t h
            | none =>
              rw [hfm] at ht
              exact ih rest line (col + 1) q t ht

theorem tokenize_input_split (m : Matcher) (input : List Nat) (q0 : Bool) :
    (tokenize_input m input q0).1 =
      (tokenizeF m stage0_patterns.length input.length input 1 1 q0).1 ++
        [create_token RiftTokenType.R_EOF strEOF
          (tokenizeF m stage0_patterns.length input.length input 1 1 q0).2.1
          (tokenizeF m stage0_patterns.length input.length input 1 1 q0).2.2.1] := rfl

theorem routeTokens_eq_filter (qmode : Bool) :
    ∀ toks : List RiftToken,
      routeTokens qmode toks =
        (toks.filter (fun t => !(t.is_quantum || qmode)),
         toks.filter (fun t => t.is_quantum || qmode)) := by
  intro toks
  induction toks with
  | nil => rfl
  | cons t rest ih =>
    show (if t.is_quantum || qmode then ((routeTokens qmode rest).1, t :: (routeTokens qmode rest).2)
          else (t :: (routeTokens qmode rest).1, (routeTokens qmode rest).2)) = _
    rw [ih]
    cases ht : t.is_quantum <;> cases qmode <;> simp [List.filter_cons, ht]

theorem unroute_filter (p : RiftToken → Bool) :
    ∀ toks : List RiftToken,
      unroute (toks.map p) (toks.filter (fun t => !(p t))) (toks.filter p) = toks := by
  intro toks
  induction toks with
  | nil => rfl
  | cons t rest ih =>
    by_cases h : p t = true
    · simp only [List.map_cons, List.filter_cons, h, Bool.not_true, if_false, if_true,
        Bool.false_eq_true]
      show unroute (true :: rest.map p) (rest.filter fun t => !(p t)) (t :: rest.filter p) = _
      rw [show unroute (true :: rest.map p) (rest.filter fun t => !(p t)) (t :: rest.filter p)
        = t :: unroute (rest.map p) (rest.filter fun t => !(p t)) (rest.filter p) from rfl]
      rw [ih]
    · simp only [Bool.not_eq_true] at h
      simp only [List.map_cons, List.filter_cons, h, Bool.not_false, if_true, if_false,
        Bool.false_eq_true]
      show unroute (false :: rest.map p) (t :: rest.filter fun t => !(p t)) (rest.filter p) = _
      rw [show unroute (false :: rest.map p) (t :: rest.filter fun t => !(p t)) (rest.filter p)
        = t :: unroute (rest.map p) (rest.filter fun t => !(p t)) (rest.filter p) from rfl]
      rw [ih]

theorem register_compile_none (failIds : List Nat) (ctx : TokenizerContext)
    (pattern : List Nat) (ttype flags : Nat)
    (h : rift_regex_compile failIds pattern flags = none) :
    (rift_rules_register_pattern failIds ctx pattern ttype flags).1 = false ∧
    (rift_rules_register_pattern failIds ctx pattern ttype flags).2.patterns = ctx.patterns := by
  unfold rift_rules_register_pattern
  by_cases hcap : ctx.patterns.length ≥ ctx.pattern_capacity
  · rw [if_pos hcap]
    exact ⟨rfl, rfl⟩
  · rw [if_neg hcap, h]
    exact ⟨rfl, rfl⟩


/-- C1 counterexample: with `[a-z]+` registered first (identifier) and `if`
second (keyword) — the spec scenario gives them priorities 50 and 200 — both
candidates accept `"if"` with length 2; the spec's selection rule picks the
keyword, but the scanner emits the identifier: the registry carries no
priority, and a length tie goes to the earliest-registered pattern. -/
theorem C1_counterexample :
    bestLenOf (ctxAB.patterns.getD 0 dummyRegex) [105, 102] 0 = 2 ∧
    bestLenOf (ctxAB.patterns.getD 1 dummyRegex) [105, 102] 0 = 2 ∧
    scanTokens ctxAB [105, 102] = [{ type := TOKEN_IDENTIFIER, mem_ptr := 0, value := 0 }] ∧
    specPick [(2, 50, TOKEN_IDENTIFIER), (2, 200, TOKEN_KEYWORD)]
      = some (2, 200, TOKEN_KEYWORD) ∧
    TOKEN_KEYWORD ≠ TOKEN_IDENTIFIER := by
  decide

/-- C1 (amended): at every scan position, among the candidate matches of the
registered patterns, the scanner emits the token of a candidate with the
greatest length; when several candidates tie on that length the
earliest-registered pattern wins (patterns carry no priority, so there is no
priority tie-break), and the emitted token carries the winner's token type. -/
theorem C1_longest_earliest (ps : List RegexComposition) (input : List Nat)
    (pos L : Nat) (r : RegexComposition)
    (h : bestMatchLoop ps input pos = (L, some r)) :
    1 ≤ L ∧ pos + L ≤ input.length ∧
    (∃ i, i < ps.length ∧ r = ps.getD i dummyRegex ∧
      matchSeg (ps.getD i dummyRegex) input pos L = true ∧
      (∀ j l, j < ps.length → pos + l ≤ input.length →
        matchSeg (ps.getD j dummyRegex) input pos l = true → l ≤ L) ∧
      (∀ j, j < i → matchSeg (ps.getD j dummyRegex) input pos L = false)) ∧
    (∀ cap ntok line col fuel, ntok < cap →
      (applyAllF ps cap input (fuel+1) pos ntok line col).1.head? =
        some ⟨pos, L, some (rift_token_create r.start_token_type pos r.flags)⟩) := by
  obtain ⟨h1, h2, i, hi, hr, hm, hbl, hmax, hlt⟩ := bestMatchLoop_some ps input pos L r h
  refine ⟨h1, h2, ⟨i, hi, hr, hm, ?_, ?_⟩, ?_⟩
  · intro j l hj hl hmj
    rcases Nat.eq_zero_or_pos l with h0 | h0
    · rw [h0, matchSeg_zero] at hmj
      exact absurd hmj Bool.false_ne_true
    · have := le_bestLenOf (ps.getD j dummyRegex) input pos l h0 hl hmj
      have := hmax j hj
      omega
  · intro j hj
    by_contra hc
    rw [Bool.not_eq_false] at hc
    have := le_bestLenOf (ps.getD j dummyRegex) input pos L h1 h2 hc
    have := hlt j hj
    omega
  · intro cap ntok line col fuel hc
    have hplt : pos < input.length := by omega
    rw [applyAllF_step_match ps cap input fuel pos ntok line col L r hplt h hc]
    rfl

/-- C1 witness: the claim's own scenario (`"if"` against `[a-z]+` then `if`)
satisfies the amended theorem's hypothesis. -/
theorem C1_longest_earliest_witness :
    1 ≤ 2 ∧ 0 + 2 ≤ ([105, 102] : List Nat).length := by
  have h := C1_longest_earliest ctxAB.patterns [105, 102] 0 2
    (ctxAB.patterns.getD 0 dummyRegex) (by rfl)
  exact ⟨h.1, h.2.1⟩

/-- C2 counterexample: capacity 1 (a legal `rift_tokenizer_create_with_capacity`
argument), input `"ab"`, no patterns: the scan returns success with one token,
the second iteration consumes a byte but emits nothing, so the token lengths
sum to 1, not 2 = |I|. -/
theorem C2_counterexample :
    (scanRun ctxCap1 [97, 98]).1 =
      [⟨0, 1, some { type := 0, mem_ptr := 0, value := 0 }⟩, ⟨1, 1, none⟩] ∧
    scanTokens ctxCap1 [97, 98] = [{ type := 0, mem_ptr := 0, value := 0 }] ∧
    rift_rules_apply_all ctxCap1 [97, 98] = 1 ∧
    (((scanRun ctxCap1 [97, 98]).1.filterMap fun it => it.emitted.map (fun _ => it.adv)).sum
      ≠ ([97, 98] : List Nat).length) := by
  decide

/-- C2 (amended): for every scan whose input length does not exceed the
token-buffer capacity (so no iteration finds the buffer full and every
iteration emits its token), the consumed lengths sum to |I|, the true token
offsets are strictly increasing, consecutive tokens abut, and the first token
sits at offset 0. -/
theorem C2_coverage (ctx : TokenizerContext) (input : List Nat)
    (hcap : input.length ≤ ctx.token_capacity) :
    (∀ it ∈ (scanRun ctx input).1, it.emitted.isSome = true) ∧
    (((scanRun ctx input).1.map fun it => it.adv).sum = input.length) ∧
    List.Chain' (fun a b => b.off = a.off + a.adv) (scanRun ctx input).1 ∧
    List.Chain' (fun a b => a.off < b.off) (scanRun ctx input).1 ∧
    (input.length ≠ 0 → ((scanRun ctx input).1.map fun it => it.off).head? = some 0) := by
  have hch : itersChained input.length 0 (scanRun ctx input).1 :=
    applyAllF_chained ctx.patterns ctx.token_capacity input input.length 0 0
      ctx.line_number ctx.column_number (Nat.le_refl _) (Nat.zero_le _)
  refine ⟨?_, ?_, itersChained_abut input.length _ 0 hch, itersChained_mono input.length _ 0 hch, ?_⟩
  · intro it hit
    exact applyAllF_all_emit ctx.patterns ctx.token_capacity input input.length 0 0
      ctx.line_number ctx.column_number (Nat.le_refl _) (by omega) it hit
  · have := itersChained_sum input.length _ 0 hch
    omega
  · intro hne
    cases hiters : (scanRun ctx input).1 with
    | nil =>
      rw [hiters] at hch
      have h0 : (0 : Nat) = input.length := hch
      exact absurd h0.symm hne
    | cons it rest =>
      rw [hiters] at hch
      obtain ⟨h1, -, -, -⟩ := hch
      simp [h1]

/-- C2 witness: scanning `"a"` on a fresh context (capacity 16). -/
theorem C2_coverage_witness :
    ((scanRun ctx0 [97]).1.map fun it => it.adv).sum = ([97] : List Nat).length := by
  exact (C2_coverage ctx0 [97] (by decide)).2.1

/-- C3 counterexample: `rift_rules_apply_all` emits no terminal token at all —
scanning the empty input yields zero tokens, not the single
`{kind: eof, offset: 0, length: 0}` token the claim requires. -/
theorem C3_counterexample :
    scanTokens ctx0 [] = [] ∧ rift_rules_apply_all ctx0 [] = 0 ∧ (0 : Nat) ≠ 1 := by
  decide

/-- C3 (amended): the core scanner (`rift_rules_apply_all`) never emits an eof
token and produces zero tokens on empty input; the separate stage-0 engine
(`tokenize_input` in rift-0.c) appends exactly one `R_EOF` token — and only
one, at the end — after its loop exhausts the input, so the empty input yields
exactly one token there, of kind `R_EOF` (value `"EOF"`, line 1, column 1). -/
theorem C3_eof_append (m : Matcher) (input : List Nat) (q0 : Bool) (ctx : TokenizerContext) :
    scanTokens ctx [] = [] ∧
    ((tokenize_input m input q0).1.map (fun t => t.type)).getLast? =
      some RiftTokenType.R_EOF ∧
    (∀ t ∈ (tokenize_input m input q0).1.dropLast, t.type ≠ RiftTokenType.R_EOF) ∧
    tokenize_input m [] q0 = ([create_token RiftTokenType.R_EOF strEOF 1 1], q0) := by
  refine ⟨rfl, ?_, ?_, rfl⟩
  · rw [tokenize_input_split]
    simp [create_token]
  · rw [tokenize_input_split]
    simp only [List.dropLast_concat]
    intro t ht
    obtain ⟨⟨i, hty⟩, -⟩ := tokenizeF_tok_inv m stage0_patterns.length input.length input 1 1 q0 t ht
    rw [hty]
    exact stage0_getD_fst_ne_eof i

/-- C3 witness: a concrete run (matcher that rejects everything, input `"a"`). -/
theorem C3_eof_append_witness :
    ((tokenize_input (fun _ _ => false) [97] false).1.map (fun t => t.type)).getLast? =
      some RiftTokenType.R_EOF := by
  exact (C3_eof_append (fun _ _ => false) [97] false ctx0).2.1

/-- C4 counterexample: a strict-mode context with no registered patterns,
input `"ab"`: the scanner does not emit an error token and does not stop — it
emits two unknown tokens (one per byte) and scans to the end, exactly as in
lenient mode. -/
theorem C4_counterexample :
    ctxStrict.strict_mode = true ∧
    scanTokens ctxStrict [97, 98] =
      [{ type := 0, mem_ptr := 0, value := 0 }, { type := 0, mem_ptr := 1, value := 0 }] ∧
    (∀ t ∈ scanTokens ctxStrict [97, 98], t.type ≠ TOKEN_ERROR) ∧
    (scanTokens ctxStrict [97, 98]).length = 2 := by
  decide

/-- C4 (amended): the scanner never consults the strict flag — the scan result
is identical in strict and lenient mode — and whenever no registered pattern
accepts any prefix at the current position (and the buffer has room), the
iteration emits a `TOKEN_UNKNOWN` token of length 1 and advances one byte. -/
theorem C4_strict_ignored (ctx : TokenizerContext) (input : List Nat) (b : Bool)
    (pos ntok line col fuel : Nat)
    (hlt : pos < input.length)
    (hnm : ∀ j l, j < ctx.patterns.length → pos + l ≤ input.length →
      matchSeg (ctx.patterns.getD j dummyRegex) input pos l = false)
    (hc : ntok < ctx.token_capacity) :
    scanRun { ctx with strict_mode := b } input = scanRun ctx input ∧
    (applyAllF ctx.patterns ctx.token_capacity input (fuel+1) pos ntok line col).1.head?
      = some ⟨pos, 1, some (rift_token_create TOKEN_UNKNOWN pos 0)⟩ := by
  refine ⟨rfl, ?_⟩
  cases hbm : bestMatchLoop ctx.patterns input pos with
  | mk L ro =>
    cases ro with
    | some r =>
      obtain ⟨h1, h2, i, hi, hr, hm, -, -, -⟩ :=
        bestMatchLoop_some ctx.patterns input pos L r hbm
      rw [hnm i L hi h2] at hm
      exact absurd hm Bool.false_ne_true
    | none =>
      rw [applyAllF_step_none ctx.patterns ctx.token_capacity input fuel pos ntok line col
        L hlt hbm hc]
      rfl

/-- C4 witness: fresh context, input `"a"`, position 0 (no patterns, so nothing
matches), strict flag set. -/
theorem C4_strict_ignored_witness :
    scanRun { ctx0 with strict_mode := true } [97] = scanRun ctx0 [97] ∧
    (applyAllF ctx0.patterns ctx0.token_capacity [97] 1 0 0 1 1).1.head?
      = some ⟨0, 1, some (rift_token_create TOKEN_UNKNOWN 0 0)⟩ := by
  exact C4_strict_ignored ctx0 [97] true 0 0 1 1 0 (by decide)
    (by intro j l hj hl; simp [ctx0] at hj) (by decide)

/-- C5 counterexample: with the allocation oracle failing DFA state 1, pattern
`"a"` compiles into a composition whose `is_compiled` flag is false — a failed
compilation — yet registration returns success and the registry count grows
from 0 to 1 (the C checks only for a NULL composition, not `is_compiled`). -/
theorem C5_counterexample :
    (rift_rules_register_pattern [1] ctx0 [97] TOKEN_IDENTIFIER 0).1 = true ∧
    ((rift_rules_register_pattern [1] ctx0 [97] TOKEN_IDENTIFIER 0).2.patterns.map
      (fun r => r.is_compiled)) = [false] ∧
    rift_rules_get_count (rift_rules_register_pattern [1] ctx0 [97] TOKEN_IDENTIFIER 0).2 = 1 ∧
    rift_rules_get_count ctx0 = 0 := by
  decide

/-- C5 (amended): registration compiles before inserting, and when
`rift_regex_compile` returns no composition object (NULL: a failed top-level
allocation, modelled as state id 0 in the failure set), registration reports
failure and leaves the registry count unchanged; but a non-null composition
whose internal DFA construction failed (`is_compiled = false`) is still
inserted with success reported. -/
theorem C5_null_compile_isolated (failIds : List Nat) (ctx : TokenizerContext)
    (pattern : List Nat) (ttype flags : Nat)
    (h : rift_regex_compile failIds pattern flags = none) :
    (rift_rules_register_pattern failIds ctx pattern ttype flags).1 = false ∧
    rift_rules_get_count (rift_rules_register_pattern failIds ctx pattern ttype flags).2
      = rift_rules_get_count ctx := by
  have hh := register_compile_none failIds ctx pattern ttype flags h
  refine ⟨hh.1, ?_⟩
  unfold rift_rules_get_count
  rw [hh.2]

/-- C5 witness: state 0 (the start state) failing to allocate makes the
compiler return NULL; registering `"a"` then fails and the registry stays
empty. -/
theorem C5_null_compile_isolated_witness :
    (rift_rules_register_pattern [0] ctx0 [97] TOKEN_IDENTIFIER 0).1 = false ∧
    rift_rules_get_count (rift_rules_register_pattern [0] ctx0 [97] TOKEN_IDENTIFIER 0).2
      = rift_rules_get_count ctx0 := by
  exact C5_null_compile_isolated [0] ctx0 [97] TOKEN_IDENTIFIER 0 rfl

/-- C6 counterexample: pattern `".."` (two wildcards) and input `"\na"`: the
lexeme consumes the line feed, but the scanner inspects only the lexeme's last
byte, so after the scan the line number is still 1 while the claim demands
1 + (number of line feeds) = 2. -/
theorem C6_counterexample :
    scanTokens ctxD [10, 97] = [{ type := 5, mem_ptr := 0, value := 0 }] ∧
    scanLine ctxD [10, 97] = 1 ∧ lfCount [10, 97] = 1 ∧
    scanLine ctxD [10, 97] ≠ 1 + lfCount [10, 97] := by
  decide

/-- C6 (amended): the scanner updates line/column once per loop iteration from
the last byte consumed in that iteration only (line feed: line+1 and column 1;
otherwise column+1); consequently the claimed formulas
`line = 1 + #LF` and `column = (bytes after the last LF) + 1` hold whenever
every iteration consumes a single byte — in particular on a fresh context with
no registered patterns — but a line feed strictly inside a multi-byte lexeme
is not counted. -/
theorem C6_lastbyte_tracking (ctx : TokenizerContext) (input : List Nat) :
    (scanRun ctx input).2 =
      ((scanRun ctx input).1.map (fun it => getB input (it.off + it.adv - 1))).foldl lcStep
        (ctx.line_number, ctx.column_number) ∧
    (ctx.patterns = [] → ctx.line_number = 1 → ctx.column_number = 1 →
      scanLine ctx input = 1 + lfCount input ∧ scanColumn ctx input = tailNoLF input + 1) := by
  constructor
  · exact applyAllF_lc ctx.patterns ctx.token_capacity input input.length 0 0
      ctx.line_number ctx.column_number
  · intro hp hl hc
    have he : (scanRun ctx input).2 = (1 + lfCount input, tailNoLF input + 1) := by
      show (applyAllF ctx.patterns ctx.token_capacity input input.length 0 0
        ctx.line_number ctx.column_number).2 = _
      rw [hp, hl, hc]
      rw [applyAllF_nil_lc ctx.token_capacity input input.length 0 0 1 1
        (Nat.le_refl _) (Nat.zero_le _)]
      rw [List.drop_zero]
      exact foldl_lcStep_spec input
    constructor
    · show (scanRun ctx input).2.1 = _
      rw [he]
    · show (scanRun ctx input).2.2 = _
      rw [he]

/-- C6 witness: fresh empty-registry context scanning `"\na"`. -/
theorem C6_lastbyte_tracking_witness :
    scanLine ctx0 [10, 97] = 1 + lfCount [10, 97] ∧
    scanColumn ctx0 [10, 97] = tailNoLF [10, 97] + 1 := by
  exact (C6_lastbyte_tracking ctx0 [10, 97]).2 rfl rfl rfl

/-- C7: a token is routed to the quantum channel iff its kind is one of
quantum-marker, collapse-marker, entangle-marker, or the context is in quantum
mode (the sticky flag toggled by the matched lexemes `!quantum` / `!classic`
during scanning, read by the router after the scan); both channels preserve the
scanner's relative token order (they are sublists), and merging the two
channels back into the original positions reconstructs the scanner's output
exactly. -/
theorem C7_dual_channel_routing (m : Matcher) (input : List Nat) (q0 : Bool) :
    (∀ t ∈ (tokenize_input m input q0).1,
      (t ∈ (process_stage0 m input q0).2 ↔
        (t.type = RiftTokenType.R_QUANTUM_TOKEN ∨ t.type = RiftTokenType.R_COLLAPSE_MARKER ∨
         t.type = RiftTokenType.R_ENTANGLE_MARKER ∨ (tokenize_input m input q0).2 = true))) ∧
    List.Sublist (process_stage0 m input q0).1 (tokenize_input m input q0).1 ∧
    List.Sublist (process_stage0 m input q0).2 (tokenize_input m input q0).1 ∧
    unroute ((tokenize_input m input q0).1.map
        (fun t => t.is_quantum || (tokenize_input m input q0).2))
      (process_stage0 m input q0).1 (process_stage0 m input q0).2
      = (tokenize_input m input q0).1 := by
  have hq : ∀ t ∈ (tokenize_input m input q0).1,
      (t.is_quantum = true ↔ (t.type = RiftTokenType.R_QUANTUM_TOKEN ∨
        t.type = RiftTokenType.R_COLLAPSE_MARKER ∨
        t.type = RiftTokenType.R_ENTANGLE_MARKER)) := by
    intro t ht
    rw [tokenize_input_split] at ht
    rcases List.mem_append.mp ht with h | h
    · exact (tokenizeF_tok_inv m stage0_patterns.length input.length input 1 1 q0 t h).2
    · rw [List.mem_singleton] at h
      subst h
      exact create_token_is_quantum _ _ _ _
  have hps : process_stage0 m input q0 =
      ((tokenize_input m input q0).1.filter
        (fun t => !(t.is_quantum || (tokenize_input m input q0).2)),
       (tokenize_input m input q0).1.filter
        (fun t => t.is_quantum || (tokenize_input m input q0).2)) := by
    show routeTokens (tokenize_input m input q0).2 (tokenize_input m input q0).1 = _
    exact routeTokens_eq_filter _ _
  refine ⟨?_, ?_, ?_, ?_⟩
  · intro t ht
    rw [hps]
    show t ∈ List.filter _ _ ↔ _
    rw [List.mem_filter]
    constructor
    · rintro ⟨-, hp⟩
      rcases Bool.or_eq_true .. |>.mp hp with h | h
      · rcases (hq t ht).mp h with h | h | h
        · exact Or.inl h
        · exact Or.inr (Or.inl h)
        · exact Or.inr (Or.inr (Or.inl h))
      · exact Or.inr (Or.inr (Or.inr h))
    · intro h
      refine ⟨ht, ?_⟩
      rcases h with h | h | h | h
      · exact Bool.or_eq_true .. |>.mpr (Or.inl ((hq t ht).mpr (Or.inl h)))
      · exact Bool.or_eq_true .. |>.mpr (Or.inl ((hq t ht).mpr (Or.inr (Or.inl h))))
      · exact Bool.or_eq_true .. |>.mpr (Or.inl ((hq t ht).mpr (Or.inr (Or.inr h))))
      · exact Bool.or_eq_true .. |>.mpr (Or.inr h)
  · rw [hps]
    exact List.filter_sublist _
  · rw [hps]
    exact List.filter_sublist _
  · rw [hps]
    exact unroute_filter _ _

/-- C7 witness: the reject-all matcher on input `"a"`; the only token is the
terminal `R_EOF`, routed to the classic channel, and the merge reconstructs the
stream. -/
theorem C7_dual_channel_routing_witness :
    (create_token RiftTokenType.R_EOF strEOF 1 2
        ∈ (process_stage0 (fun _ _ => false) [97] false).2 ↔
      (RiftTokenType.R_EOF = RiftTokenType.R_QUANTUM_TOKEN ∨
       RiftTokenType.R_EOF = RiftTokenType.R_COLLAPSE_MARKER ∨
       RiftTokenType.R_EOF = RiftTokenType.R_ENTANGLE_MARKER ∨
       (tokenize_input (fun _ _ => false) [97] false).2 = true)) ∧
    unroute (((tokenize_input (fun _ _ => false) [97] false).1).map
        (fun t => t.is_quantum || (tokenize_input (fun _ _ => false) [97] false).2))
      (process_stage0 (fun _ _ => false) [97] false).1
      (process_stage0 (fun _ _ => false) [97] false).2
      = (tokenize_input (fun _ _ => false) [97] false).1 := by
  have h := C7_dual_channel_routing (fun _ _ => false) [97] false
  exact ⟨h.1 (create_token RiftTokenType.R_EOF strEOF 1 2) (by decide), h.2.2.2⟩

/-- C8 counterexample: adding a second transition on byte 97 from state 0
(which already maps byte 97 to state 1) returns success and overwrites the
edge to state 2 — the claim's rejection with an unchanged edge does not
happen. -/
theorem C8_counterexample :
    ((rift_dfa_add_transition (rift_dfa_add_transition (fun _ _ => none) 0 1 97).2 0 2 97).1
      = true) ∧
    ((rift_dfa_add_transition (rift_dfa_add_transition (fun _ _ => none) 0 1 97).2 0 2 97).2 0 97
      = some 2) ∧
    ((rift_dfa_add_transition (fun _ _ => none) 0 1 97).2 0 97 = some 1) := by
  refine ⟨rfl, by decide, by decide⟩

/-- C8 (amended): `rift_dfa_add_transition` never fails for valid states: it
returns true and unconditionally overwrites the slot for that byte, leaving
every other slot unchanged. There is no determinism-violation error. -/
theorem C8_overwrite (d : Delta) (fromId toId c : Nat) :
    (rift_dfa_add_transition d fromId toId c).1 = true ∧
    (rift_dfa_add_transition d fromId toId c).2 fromId (c % 256) = some toId ∧
    ∀ s b, ¬(s = fromId ∧ b = c % 256) →
      (rift_dfa_add_transition d fromId toId c).2 s b = d s b := by
  refine ⟨rfl, ?_, ?_⟩
  · show (if fromId = fromId ∧ c % 256 = c % 256 then some toId else d fromId (c % 256))
      = some toId
    rw [if_pos ⟨rfl, rfl⟩]
  · intro s b h
    show (if s = fromId ∧ b = c % 256 then some toId else d s b) = d s b
    rw [if_neg h]

/-- C8 witness: an untouched slot keeps its previous (empty) value. -/
theorem C8_overwrite_witness :
    (rift_dfa_add_transition (fun _ _ => none) 0 1 97).2 1 0 = none := by
  exact (C8_overwrite (fun _ _ => none) 0 1 97).2.2 1 0 (by decide)

/-- C9: scanning terminates — matching a zero-length byte range always fails
(so no pattern yields an empty match), every loop iteration consumes at least
one byte and stays within the input, the loop runs at most |I| iterations, and
the iterations consume exactly the whole input. -/
theorem C9_scan_terminates (ctx : TokenizerContext) (input : List Nat) :
    (∀ r : RegexComposition, rift_regex_match r [] = false) ∧
    (∀ it ∈ (scanRun ctx input).1, 1 ≤ it.adv ∧ it.off + it.adv ≤ input.length) ∧
    (scanRun ctx input).1.length ≤ input.length ∧
    (((scanRun ctx input).1.map fun it => it.adv).sum = input.length) := by
  have hch : itersChained input.length 0 (scanRun ctx input).1 :=
    applyAllF_chained ctx.patterns ctx.token_capacity input input.length 0 0
      ctx.line_number ctx.column_number (Nat.le_refl _) (Nat.zero_le _)
  refine ⟨rift_regex_match_nil, itersChained_adv input.length _ 0 hch, ?_, ?_⟩
  · have := itersChained_len input.length _ 0 hch
    omega
  · have := itersChained_sum input.length _ 0 hch
    omega

/-- C9 witness: the first iteration of scanning `"a"` on a fresh context. -/
theorem C9_scan_terminates_witness :
    1 ≤ (1 : Nat) ∧ (0 : Nat) + 1 ≤ ([97] : List Nat).length := by
  exact (C9_scan_terminates ctx0 [97]).2.1 ⟨0, 1, some (rift_token_create TOKEN_UNKNOWN 0 0)⟩
    (by decide)

/-- C10: every emitted token records its start offset in the 16-bit `mem_ptr`
bitfield as the true byte position reduced modulo 2^16 (the `(uint16_t)pos`
conversion), as the concrete evaluation `70000 ↦ 4464` also exhibits; the scan
itself imposes no bound on the input length. -/
theorem C10_offset_mod_65536 (ctx : TokenizerContext) (input : List Nat) :
    (∀ it ∈ (scanRun ctx input).1, ∀ t, it.emitted = some t →
      t.mem_ptr = it.off % 65536) ∧
    rift_token_create TOKEN_IDENTIFIER 70000 0
      = { type := 1, mem_ptr := 4464, value := 0 } := by
  refine ⟨?_, by decide⟩
  intro it hit t hem
  exact applyAllF_memptr ctx.patterns ctx.token_capacity input input.length 0 0
    ctx.line_number ctx.column_number it t hit hem

/-- C10 witness: the single token of scanning `"a"` on a fresh context. -/
theorem C10_offset_mod_65536_witness :
    (rift_token_create TOKEN_UNKNOWN 0 0).mem_ptr = (0 : Nat) % 65536 := by
  exact (C10_offset_mod_65536 ctx0 [97]).1 ⟨0, 1, some (rift_token_create TOKEN_UNKNOWN 0 0)⟩
    (by decide) (rift_token_create TOKEN_UNKNOWN 0 0) rfl

end Rift